import Mathlib

/-!
Shallow embedding of `src/include/boost/math/interpolators/makima.hpp`
(class `boost::math::interpolators::makima`), the modified-Akima
piecewise-cubic interpolant.

The template parameter `Real` is modelled by `ℚ` (exact arithmetic); the
`RandomAccessContainer` is modelled by `List ℚ`.  Thrown `std::domain_error`
exceptions are modelled by `Except` error values.  Out-of-range reads cannot
occur on the paths we verify, so list indexing uses `List.getD` with
default 0; subtraction of indices is `Nat` subtraction, which agrees with the
`size_t` arithmetic of the source for the validated sizes (at least two
points, so `s_.size()-2` never wraps).
-/

/-- Errors thrown by the constructor `makima::makima` (lines 25-40 of
makima.hpp).  Each constructor corresponds to one `throw std::domain_error`
site, in source order. -/
inductive ConstructErr where
  /-- "There must be the same number of ordinates as abscissas." -/
  | sizeMismatch
  /-- "Must be at least two data points." -/
  | tooFewPoints
  /-- "Abscissas must be listed in strictly increasing order x0 < x1 < ..." -/
  | notIncreasing
deriving DecidableEq, Repr

/-- Error thrown by `makima::operator()` (lines 55-59): the message is built
from the requested abscissa and the two endpoints of the allowed range, so
the embedded error carries exactly those three values. -/
inductive EvalErr where
  | outOfDomain (requested lo hi : ℚ)
deriving DecidableEq, Repr

/-- The interpolant state: the three member containers `x_`, `y_`, `s_` of
class `makima` (lines 100-102). -/
structure Makima where
  x : List ℚ
  y : List ℚ
  s : List ℚ
deriving DecidableEq, Repr

/-- The monotonicity loop of the constructor (lines 33-40): walks adjacent
pairs and fails on the first pair with `x1 <= x0`; it succeeds exactly when
every adjacent pair is strictly increasing. -/
def strictlyInc : List ℚ → Bool
  | [] => true
  | [_] => true
  | a :: b :: rest => if a < b then strictlyInc (b :: rest) else false

/-- A secant slope `(y[k+1]-y[k])/(x[k+1]-x[k])` of the sample set, the
quantity computed inline four times per iteration of the constructor loop
(lines 44-47). -/
def secantSlope (x y : List ℚ) (k : Nat) : ℚ :=
  (y.getD (k+1) 0 - y.getD k 0) / (x.getD (k+1) 0 - x.getD k 0)

/-- Body of the slope-estimation loop (lines 44-50) for one interior index
`i`: the four local secant slopes `mim2`, `mim1`, `mi`, `mip1`, the weighted
numerator and denominator, and their quotient, exactly as in the source. -/
def slopeAt (x y : List ℚ) (i : Nat) : ℚ :=
  let mim2 := (y.getD (i-1) 0 - y.getD (i-2) 0) / (x.getD (i-1) 0 - x.getD (i-2) 0)
  let mim1 := (y.getD i 0 - y.getD (i-1) 0) / (x.getD i 0 - x.getD (i-1) 0)
  let mi := (y.getD (i+1) 0 - y.getD i 0) / (x.getD (i+1) 0 - x.getD i 0)
  let mip1 := (y.getD (i+2) 0 - y.getD (i+1) 0) / (x.getD (i+2) 0 - x.getD (i+1) 0)
  let numerator := |mip1 - mi| * mim1 + |mim1 - mim2| * mi
  let denominator := |mip1 - mi| + |mim1 - mim2|
  numerator / denominator

/-- The slope vector `s_` after construction (lines 42-51):
`s_.resize(x_.size())` value-initialises every entry of the numeric
container to zero, then the loop `for (i = 2; i < s_.size()-2; ++i)`
overwrites the interior entries with `slopeAt`.  Each iteration writes a
distinct index and reads only `x_` and `y_`, so the resulting container is
this per-index map. -/
def computeSlopes (x y : List ℚ) : List ℚ :=
  (List.range x.length).map (fun i => if 2 ≤ i ∧ i < x.length - 2 then slopeAt x y i else 0)

/-- The constructor `makima::makima` (lines 22-52): the three validation
checks in source order, short-circuiting on the first failure, followed by
the slope computation.  On failure no `Makima` value exists. -/
def Construct (x y : List ℚ) : Except ConstructErr Makima :=
  if x.length ≠ y.length then .error .sizeMismatch
  else if x.length < 2 then .error .tooFewPoints
  else if ¬ strictlyInc x then .error .notIncreasing
  else .ok ⟨x, y, computeSlopes x y⟩

/-- `std::upper_bound(x_.begin(), x_.end(), x)` as an index (line 66): the
first position whose element is strictly greater than `q`, or the length
when no such element exists.  `std::upper_bound` reaches this position by
binary partition; on any sequence this is the first index at which the
partition predicate holds, which is the value computed here. -/
def upperBound (q : ℚ) : List ℚ → Nat
  | [] => 0
  | a :: rest => if q < a then 0 else upperBound q rest + 1

/-- The fully factored cubic expression of lines 83-84 of `operator()`, as a
function of the local parameter `t` and the segment data:
`(1-t)^2*(y0*(1+2t) + s0*dx) + t^2*(y1*(3-2t) + dx*s1*(t-1))`. -/
def factoredEval (t y0 y1 s0 s1 dx : ℚ) : ℚ :=
  (1-t)*(1-t)*(y0*(1+2*t) + s0*dx) + t*t*(y1*(3-2*t) + dx*s1*(t-1))

/-- The first factorized form given in the source comment at lines 80-81:
`y0*(1+2*t)*(1-t)*(1-t) + dx*s0*t*(1-t)*(1-t) + y1*t*t*(3-2*t) + dx*s1*t*t*(t-1)`.
Line 83 claims to be this expression factorized further. -/
def factoredCommented (t y0 y1 s0 s1 dx : ℚ) : ℚ :=
  y0*(1+2*t)*(1-t)*(1-t) + dx*s0*t*(1-t)*(1-t) + y1*t*t*(3-2*t) + dx*s1*t*t*(t-1)

/-- `makima::operator()` (lines 54-86): domain check, exact-right-endpoint
return, interval search via `upper_bound` stepped back one position, local
parameter `t = (q - x0)/dx`, then the factored cubic.  On the reachable path
the search index is at least 1, so the `Nat` subtraction `upperBound - 1`
agrees with the signed `std::distance(...) - 1` of the source. -/
def Evaluate (m : Makima) (q : ℚ) : Except EvalErr ℚ :=
  let n := m.x.length
  if q < m.x.getD 0 0 ∨ q > m.x.getD (n-1) 0 then
    .error (.outOfDomain q (m.x.getD 0 0) (m.x.getD (n-1) 0))
  else if q = m.x.getD (n-1) 0 then
    .ok (m.y.getD (m.y.length - 1) 0)
  else
    let i := upperBound q m.x - 1
    let x0 := m.x.getD i 0
    let x1 := m.x.getD (i+1) 0
    let y0 := m.y.getD i 0
    let y1 := m.y.getD (i+1) 0
    let s0 := m.s.getD i 0
    let s1 := m.s.getD (i+1) 0
    let dx := x1 - x0
    let t := (q - x0) / dx
    .ok (factoredEval t y0 y1 s0 s1 dx)

/-- Modelled from the spec (section 4.2, step 3): standard Hermite basis
function `h00(t) = 2t^3 - 3t^2 + 1` for the left value. -/
def h00 (t : ℚ) : ℚ := 2*t^3 - 3*t^2 + 1

/-- Modelled from the spec: standard Hermite basis function
`h10(t) = t^3 - 2t^2 + t` for the left derivative. -/
def h10 (t : ℚ) : ℚ := t^3 - 2*t^2 + t

/-- Modelled from the spec: standard Hermite basis function
`h01(t) = -2t^3 + 3t^2` for the right value. -/
def h01 (t : ℚ) : ℚ := -2*t^3 + 3*t^2

/-- Modelled from the spec: standard Hermite basis function
`h11(t) = t^3 - t^2` for the right derivative. -/
def h11 (t : ℚ) : ℚ := t^3 - t^2

/-- Modelled from the spec (section 4.2, step 3): the standard Hermite basis
form `y0*h00(t) + dx*m0*h10(t) + y1*h01(t) + dx*m1*h11(t)`, with the
derivative arguments named `s0`, `s1` as in the code. -/
def hermiteStandard (t y0 y1 s0 s1 dx : ℚ) : ℚ :=
  y0 * h00 t + dx * s0 * h10 t + y1 * h01 t + dx * s1 * h11 t

/-- Example abscissas: the quadratic sample set of spec section 8,
scenario 1. -/
def exX : List ℚ := [0, 1, 2, 3, 4, 5]

/-- Example ordinates of spec section 8, scenario 1. -/
def exY : List ℚ := [0, 1, 4, 9, 16, 25]

/-- The interpolant the constructor builds from `exX`, `exY`: the secant
slopes are 1, 3, 5, 7, 9, so the interior loop stores
`s[2] = (|7-5|*3 + |3-1|*5)/(|7-5| + |3-1|) = 4` and
`s[3] = (|9-7|*5 + |5-3|*7)/(|9-7| + |5-3|) = 6`; all other entries stay at
their value-initialised zero. -/
def exM : Makima := ⟨[0, 1, 2, 3, 4, 5], [0, 1, 4, 9, 16, 25], [0, 0, 4, 6, 0, 0]⟩

/-- A two-point interpolant: with n = 2 the interior loop is empty and both
slope entries stay at zero. -/
def exM2 : Makima := ⟨[0, 1], [3, 4], [0, 0]⟩

/-- The three-point interpolant of spec section 8, scenario 2: with n = 3
the interior loop range [2, 1) is empty and all slope entries stay zero. -/
def exM3 : Makima := ⟨[0, 1, 2], [0, 1, 0], [0, 0, 0]⟩

theorem exConstruct : Construct exX exY = .ok exM := by
  norm_num [Construct, exX, exY, exM, strictlyInc, computeSlopes, slopeAt, List.range_succ]

theorem construct_ok {xs ys : List ℚ} {m : Makima} (h : Construct xs ys = .ok m) :
    m.x = xs ∧ m.y = ys ∧ m.s = computeSlopes xs ys ∧
    xs.length = ys.length ∧ 2 ≤ xs.length ∧ strictlyInc xs = true := by
  unfold Construct at h
  split_ifs at h with h1 h2 h3
  cases h
  refine ⟨rfl, rfl, rfl, by omega, by omega, by simp_all⟩

theorem upperBound_le_length (q : ℚ) : ∀ l : List ℚ, upperBound q l ≤ l.length
  | [] => Nat.le_refl 0
  | a :: rest => by
    by_cases h : q < a
    · simp [upperBound, h]
    · simp only [upperBound, if_neg h, List.length_cons]
      exact Nat.succ_le_succ (upperBound_le_length q rest)

theorem getD_le_of_lt_upperBound (q : ℚ) :
    ∀ (l : List ℚ) (k : Nat), k < upperBound q l → l.getD k 0 ≤ q
  | [], k, hk => by simp [upperBound] at hk
  | a :: rest, k, hk => by
    by_cases h : q < a
    · simp [upperBound, h] at hk
    · simp only [upperBound, if_neg h] at hk
      match k with
      | 0 => exact le_of_not_lt h
      | k+1 =>
        exact getD_le_of_lt_upperBound q rest k (Nat.lt_of_succ_lt_succ hk)

theorem lt_getD_upperBound (q : ℚ) :
    ∀ l : List ℚ, upperBound q l < l.length → q < l.getD (upperBound q l) 0
  | [], h => by simp [upperBound] at h
  | a :: rest, h => by
    by_cases hq : q < a
    · simp only [upperBound, if_pos hq, List.getD_cons_zero]
      exact hq
    · simp only [upperBound, if_neg hq, List.length_cons,
        Nat.add_lt_add_iff_right] at h
      simp only [upperBound, if_neg hq, List.getD_cons_succ]
      exact lt_getD_upperBound q rest h

theorem upperBound_le (q : ℚ) :
    ∀ (l : List ℚ) (k : Nat), k < l.length → q < l.getD k 0 → upperBound q l ≤ k
  | [], k, hk, _ => by simp at hk
  | a :: rest, k, hk, hq => by
    by_cases h : q < a
    · simp [upperBound, h]
    · match k with
      | 0 => exact absurd (by simpa using hq) h
      | k+1 =>
        simp only [upperBound, if_neg h]
        exact Nat.succ_le_succ
          (upperBound_le q rest k (by simpa using hk) (by simpa using hq))

theorem strictlyInc_iff_chain' : ∀ l : List ℚ, strictlyInc l = true ↔ l.Chain' (· < ·)
  | [] => by simp [strictlyInc]
  | [a] => by simp [strictlyInc]
  | a :: b :: rest => by
    rw [List.chain'_cons]
    by_cases h : a < b
    · simp [strictlyInc, h, strictlyInc_iff_chain' (b :: rest)]
    · simp [strictlyInc, h]

theorem strictlyInc_getD_lt {l : List ℚ} (h : strictlyInc l = true) {i j : Nat}
    (hij : i < j) (hj : j < l.length) : l.getD i 0 < l.getD j 0 := by
  have hp : l.Pairwise (· < ·) :=
    List.chain'_iff_pairwise.mp ((strictlyInc_iff_chain' l).mp h)
  have hi : i < l.length := lt_trans hij hj
  rw [List.getD_eq_getElem _ _ hi, List.getD_eq_getElem _ _ hj]
  exact List.pairwise_iff_getElem.mp hp i j hi hj hij

theorem strictlyInc_getD_le {l : List ℚ} (h : strictlyInc l = true) {i j : Nat}
    (hij : i ≤ j) (hj : j < l.length) : l.getD i 0 ≤ l.getD j 0 := by
  rcases Nat.eq_or_lt_of_le hij with rfl | hlt
  · exact le_refl _
  · exact le_of_lt (strictlyInc_getD_lt h hlt hj)

theorem strictlyInc_iff_adj (l : List ℚ) :
    strictlyInc l = true ↔ ∀ i, i + 1 < l.length → l.getD i 0 < l.getD (i+1) 0 := by
  rw [strictlyInc_iff_chain', List.chain'_iff_get]
  constructor
  · intro h i hi
    have := h i (by omega)
    simp only [List.get_eq_getElem] at this
    rwa [List.getD_eq_getElem _ _ (by omega), List.getD_eq_getElem _ _ (by omega)]
  · intro h i hi
    have := h i (by omega)
    rw [List.getD_eq_getElem _ _ (by omega), List.getD_eq_getElem _ _ (by omega)] at this
    simpa using this

theorem computeSlopes_length (x y : List ℚ) : (computeSlopes x y).length = x.length := by
  simp [computeSlopes]

theorem computeSlopes_getD (x y : List ℚ) (i : Nat) (hi : i < x.length) :
    (computeSlopes x y).getD i 0
      = if 2 ≤ i ∧ i < x.length - 2 then slopeAt x y i else 0 := by
  unfold computeSlopes
  rw [List.getD_eq_getElem _ _ (by simpa using hi)]
  simp

theorem slopeAt_eq_secant (x y : List ℚ) (i : Nat) (h2 : 2 ≤ i) :
    slopeAt x y i =
      (|secantSlope x y (i+1) - secantSlope x y i| * secantSlope x y (i-1)
        + |secantSlope x y (i-1) - secantSlope x y (i-2)| * secantSlope x y i)
      / (|secantSlope x y (i+1) - secantSlope x y i|
        + |secantSlope x y (i-1) - secantSlope x y (i-2)|) := by
  obtain ⟨j, rfl⟩ : ∃ j, i = j + 2 := ⟨i - 2, by omega⟩
  rfl

theorem construct_slope_eq {xs ys : List ℚ} {m : Makima} (h : Construct xs ys = .ok m)
    {i : Nat} (h2 : 2 ≤ i) (hi : i < xs.length - 2) :
    m.s.getD i 0 =
      (|secantSlope xs ys (i+1) - secantSlope xs ys i| * secantSlope xs ys (i-1)
        + |secantSlope xs ys (i-1) - secantSlope xs ys (i-2)| * secantSlope xs ys i)
      / (|secantSlope xs ys (i+1) - secantSlope xs ys i|
        + |secantSlope xs ys (i-1) - secantSlope xs ys (i-2)|) := by
  obtain ⟨-, -, hs, -, -, -⟩ := construct_ok h
  rw [hs, computeSlopes_getD _ _ _ (by omega), if_pos ⟨h2, hi⟩,
    slopeAt_eq_secant _ _ _ h2]

theorem convex_div_between {a b m1 m2 : ℚ} (ha : 0 ≤ a) (hb : 0 ≤ b)
    (hab : a + b ≠ 0) :
    min m1 m2 ≤ (a * m1 + b * m2) / (a + b)
    ∧ (a * m1 + b * m2) / (a + b) ≤ max m1 m2 := by
  have hpos : 0 < a + b := lt_of_le_of_ne (by positivity) (Ne.symm hab)
  constructor
  · rw [le_div_iff₀ hpos]
    have h1 : min m1 m2 * a ≤ m1 * a :=
      mul_le_mul_of_nonneg_right (min_le_left _ _) ha
    have h2 : min m1 m2 * b ≤ m2 * b :=
      mul_le_mul_of_nonneg_right (min_le_right _ _) hb
    nlinarith
  · rw [div_le_iff₀ hpos]
    have h1 : m1 * a ≤ max m1 m2 * a :=
      mul_le_mul_of_nonneg_right (le_max_left _ _) ha
    have h2 : m2 * b ≤ max m1 m2 * b :=
      mul_le_mul_of_nonneg_right (le_max_right _ _) hb
    nlinarith

theorem exConstruct2 : Construct [0, 1] [3, 4] = .ok exM2 := by
  norm_num [Construct, exM2, strictlyInc, computeSlopes, slopeAt, List.range_succ]

theorem exConstruct3 : Construct [0, 1, 2] [0, 1, 0] = .ok exM3 := by
  norm_num [Construct, exM3, strictlyInc, computeSlopes, slopeAt, List.range_succ]

/-- C1: the claim asserts that the factored cubic of lines 83-84 is
algebraically identical to the standard Hermite basis form for every
t, y0, y1, s0, s1, dx.  The first factorized form of the source comment
(lines 80-81) is indeed identical to the standard form, but the further
factored expression of line 83 drops the factor t from the s0 term: at
t = 0, y0 = 0, y1 = 0, s0 = 1, s1 = 0, dx = 1 the code expression yields 1
while the standard Hermite form yields 0, so the two differ. -/
theorem factored_form_diverges_from_hermite :
    (∀ t y0 y1 s0 s1 dx : ℚ,
      factoredCommented t y0 y1 s0 s1 dx = hermiteStandard t y0 y1 s0 s1 dx)
    ∧ factoredEval 0 0 0 1 0 1 = 1 ∧ hermiteStandard 0 0 0 1 0 1 = 0 := by
  refine ⟨fun t y0 y1 s0 s1 dx => ?_, by norm_num [factoredEval],
    by norm_num [hermiteStandard, h00, h10, h01, h11]⟩
  simp only [factoredCommented, hermiteStandard, h00, h10, h01, h11]
  ring

/-- C2: the claim asserts Evaluate(instance, x[i]) = y[i] at every sample
node.  On the quadratic sample set of spec scenario 1 the constructor
stores s[2] = 4, and Evaluate at x[2] = 2 takes the Hermite branch with
t = 0 and returns y[2] + s[2]*(x[3]-x[2]) = 8 instead of y[2] = 4, because
the factored cubic of line 83 multiplies s0*dx by (1-t)^2 instead of
t*(1-t)^2. -/
theorem evaluate_at_node_diverges :
    Construct exX exY = .ok exM
    ∧ exX.getD 2 0 = 2 ∧ exY.getD 2 0 = 4
    ∧ Evaluate exM 2 = .ok 8 ∧ (8 : ℚ) ≠ 4 := by
  refine ⟨exConstruct, by norm_num [exX], by norm_num [exY], ?_, by norm_num⟩
  norm_num [Evaluate, exM, upperBound, factoredEval]

/-- C3: the claim asserts value continuity at every interior node: the
segment [x[i-1], x[i]] cubic at t = 1 should equal what Evaluate returns at
x[i] (the segment [x[i], x[i+1]] cubic at t = 0).  On the sample set of spec
scenario 1 at interior node i = 2: the left segment cubic at t = 1 is
y[2] = 4, while Evaluate at x[2] = 2 returns 8. -/
theorem continuity_diverges :
    Construct exX exY = .ok exM
    ∧ factoredEval 1 (exY.getD 1 0) (exY.getD 2 0) (exM.s.getD 1 0)
        (exM.s.getD 2 0) (exX.getD 2 0 - exX.getD 1 0) = 4
    ∧ Evaluate exM (exX.getD 2 0) = .ok 8 ∧ (4 : ℚ) ≠ 8 := by
  refine ⟨exConstruct, ?_, ?_, by norm_num⟩
  · norm_num [factoredEval, exY, exM, exX]
  · norm_num [Evaluate, exM, exX, upperBound, factoredEval]

/-- C4: Evaluate returns the out-of-domain error, carrying the requested
value and both endpoints of the closed range, exactly when q < x[0] or
q > x[n-1]; for every q inside the closed range it returns a value.  The
embedded Evaluate is a function of the interpolant and returns no new state,
matching the const member function of the source, so the interpolant is
unchanged whether or not the error is raised. -/
theorem evaluate_domain (xs ys : List ℚ) (m : Makima) (q : ℚ)
    (h : Construct xs ys = .ok m) :
    (Evaluate m q
        = .error (.outOfDomain q (xs.getD 0 0) (xs.getD (xs.length - 1) 0))
      ↔ (q < xs.getD 0 0 ∨ q > xs.getD (xs.length - 1) 0))
    ∧ (xs.getD 0 0 ≤ q → q ≤ xs.getD (xs.length - 1) 0 →
        ∃ v : ℚ, Evaluate m q = .ok v) := by
  obtain ⟨hx, hy, -, -, -, -⟩ := construct_ok h
  by_cases hc : q < xs.getD 0 0 ∨ q > xs.getD (xs.length - 1) 0
  · have he : Evaluate m q
        = .error (.outOfDomain q (xs.getD 0 0) (xs.getD (xs.length - 1) 0)) := by
      simp only [Evaluate, hx]
      rw [if_pos hc]
    refine ⟨iff_of_true he hc, fun hlo hhi => ?_⟩
    rcases hc with hc | hc
    · exact absurd hlo (not_le.2 hc)
    · exact absurd hhi (not_le.2 hc)
  · have hok : ∃ v : ℚ, Evaluate m q = .ok v := by
      simp only [Evaluate, hx]
      rw [if_neg hc]
      by_cases hq : q = xs.getD (xs.length - 1) 0
      · rw [if_pos hq]
        exact ⟨_, rfl⟩
      · rw [if_neg hq]
        exact ⟨_, rfl⟩
    obtain ⟨v, hv⟩ := hok
    refine ⟨iff_of_false ?_ hc, fun _ _ => ⟨v, hv⟩⟩
    rw [hv]
    exact fun hcon => Except.noConfusion hcon

/-- C4 witness: the two-point interpolant on [0, 1] rejects the query 2 with
the error carrying the requested value and both endpoints. -/
theorem evaluate_domain_witness :
    ((2 : ℚ) < List.getD [(0 : ℚ), 1] 0 0
      ∨ (2 : ℚ) > List.getD [(0 : ℚ), 1] ([(0 : ℚ), 1].length - 1) 0)
    ∧ Evaluate exM2 2
      = .error (.outOfDomain 2 (List.getD [(0 : ℚ), 1] 0 0)
          (List.getD [(0 : ℚ), 1] ([(0 : ℚ), 1].length - 1) 0)) := by
  have hc : (2 : ℚ) < List.getD [(0 : ℚ), 1] 0 0
      ∨ (2 : ℚ) > List.getD [(0 : ℚ), 1] ([(0 : ℚ), 1].length - 1) 0 := by
    norm_num
  exact ⟨hc, ((evaluate_domain [0, 1] [3, 4] exM2 2 exConstruct2).1).mpr hc⟩

/-- C5: the constructor raises the length-mismatch error whenever the
lengths differ (even if the abscissas are also non-monotonic), the
too-few-points error next, the non-monotonic error when some adjacent pair
fails to increase, and succeeds exactly on valid input; an error result
excludes any constructed interpolant. -/
theorem construct_validation (xs ys : List ℚ) :
    (xs.length ≠ ys.length → Construct xs ys = .error .sizeMismatch)
    ∧ (xs.length = ys.length → xs.length < 2 →
        Construct xs ys = .error .tooFewPoints)
    ∧ (xs.length = ys.length → 2 ≤ xs.length →
        (∃ i, i + 1 < xs.length ∧ xs.getD (i+1) 0 ≤ xs.getD i 0) →
        Construct xs ys = .error .notIncreasing)
    ∧ (xs.length = ys.length → 2 ≤ xs.length →
        (∀ i, i + 1 < xs.length → xs.getD i 0 < xs.getD (i+1) 0) →
        Construct xs ys = .ok ⟨xs, ys, computeSlopes xs ys⟩)
    ∧ (∀ e, Construct xs ys = .error e → ∀ m, Construct xs ys ≠ .ok m) := by
  refine ⟨?_, ?_, ?_, ?_, ?_⟩
  · intro h1
    unfold Construct
    rw [if_pos h1]
  · intro h1 h2
    unfold Construct
    rw [if_neg (by omega), if_pos h2]
  · intro h1 h2 h3
    have hninc : ¬ strictlyInc xs = true := by
      rw [strictlyInc_iff_adj]
      push_neg
      obtain ⟨i, hi, hle⟩ := h3
      exact ⟨i, hi, hle⟩
    unfold Construct
    rw [if_neg (by omega), if_neg (by omega), if_pos hninc]
  · intro h1 h2 h3
    have hinc : strictlyInc xs = true := (strictlyInc_iff_adj xs).mpr h3
    unfold Construct
    rw [if_neg (by omega), if_neg (by omega), if_neg (not_not_intro hinc)]
  · intro e he m hm
    rw [he] at hm
    exact Except.noConfusion hm

/-- C5 witness: on input with both a length mismatch and decreasing
abscissas, the length check fires first. -/
theorem construct_validation_witness :
    ([(2 : ℚ), 1].length ≠ [(0 : ℚ)].length)
    ∧ Construct [2, 1] [0] = .error .sizeMismatch :=
  ⟨by norm_num, (construct_validation [2, 1] [0]).1 (by norm_num)⟩

/-- C6: for every validly constructed interpolant, Evaluate at the last
abscissa returns the last ordinate through the direct-return branch, which
in the definition of Evaluate precedes the interval search and the Hermite
evaluation. -/
theorem evaluate_last_node (xs ys : List ℚ) (m : Makima)
    (h : Construct xs ys = .ok m) :
    Evaluate m (xs.getD (xs.length - 1) 0) = .ok (ys.getD (ys.length - 1) 0) := by
  obtain ⟨hx, hy, -, -, hn, hinc⟩ := construct_ok h
  have h0 : xs.getD 0 0 ≤ xs.getD (xs.length - 1) 0 :=
    strictlyInc_getD_le hinc (Nat.zero_le _) (by omega)
  have hcond : ¬ (xs.getD (xs.length - 1) 0 < xs.getD 0 0
      ∨ xs.getD (xs.length - 1) 0 > xs.getD (xs.length - 1) 0) := by
    push_neg
    exact ⟨h0, le_refl _⟩
  simp only [Evaluate, hx, hy]
  rw [if_neg hcond, if_pos trivial]

/-- C6 witness: the two-point interpolant returns y[1] = 4 at x[1] = 1. -/
theorem evaluate_last_node_witness :
    Construct [(0 : ℚ), 1] [3, 4] = .ok exM2 ∧ Evaluate exM2 1 = .ok 4 := by
  refine ⟨exConstruct2, ?_⟩
  have := evaluate_last_node [0, 1] [3, 4] exM2 exConstruct2
  simpa using this

/-- C7: at construction each interior slope s[i] with 2 <= i < n-2 equals
the weighted combination
(|m_{i+1}-m_i|*m_{i-1} + |m_{i-1}-m_{i-2}|*m_i) / (|m_{i+1}-m_i| + |m_{i-1}-m_{i-2}|)
of the four surrounding secant slopes, whenever the weight denominator is
nonzero. -/
theorem interior_slope_formula (xs ys : List ℚ) (m : Makima) (i : Nat)
    (h : Construct xs ys = .ok m) (h2 : 2 ≤ i) (hi : i < xs.length - 2)
    (hd : |secantSlope xs ys (i+1) - secantSlope xs ys i|
        + |secantSlope xs ys (i-1) - secantSlope xs ys (i-2)| ≠ 0) :
    m.s.getD i 0 =
      (|secantSlope xs ys (i+1) - secantSlope xs ys i| * secantSlope xs ys (i-1)
        + |secantSlope xs ys (i-1) - secantSlope xs ys (i-2)| * secantSlope xs ys i)
      / (|secantSlope xs ys (i+1) - secantSlope xs ys i|
        + |secantSlope xs ys (i-1) - secantSlope xs ys (i-2)|) :=
  construct_slope_eq h h2 hi

/-- C7 witness: on the quadratic sample set the secant slopes around i = 2
are 1, 3, 5, 7, the weight denominator is |7-5| + |3-1| = 4, and the stored
slope equals the weighted formula. -/
theorem interior_slope_formula_witness :
    (|secantSlope exX exY 3 - secantSlope exX exY 2|
      + |secantSlope exX exY 1 - secantSlope exX exY 0| ≠ 0)
    ∧ exM.s.getD 2 0 =
      (|secantSlope exX exY 3 - secantSlope exX exY 2| * secantSlope exX exY 1
        + |secantSlope exX exY 1 - secantSlope exX exY 0| * secantSlope exX exY 2)
      / (|secantSlope exX exY 3 - secantSlope exX exY 2|
        + |secantSlope exX exY 1 - secantSlope exX exY 0|) := by
  have hd : |secantSlope exX exY 3 - secantSlope exX exY 2|
      + |secantSlope exX exY 1 - secantSlope exX exY 0| ≠ 0 := by
    norm_num [secantSlope, exX, exY]
  exact ⟨hd, interior_slope_formula exX exY exM 2 exConstruct (by norm_num)
    (by norm_num [exX]) hd⟩

/-- C8: each interior slope with nonzero weight denominator is a convex
combination of the two central secant slopes, hence lies between their
minimum and maximum inclusive; the embedded operations never produce a
modified slope vector (Evaluate returns only a value or an error), so the
property holds in every reachable interpolant state. -/
theorem interior_slope_between (xs ys : List ℚ) (m : Makima) (i : Nat)
    (h : Construct xs ys = .ok m) (h2 : 2 ≤ i) (hi : i < xs.length - 2)
    (hd : |secantSlope xs ys (i+1) - secantSlope xs ys i|
        + |secantSlope xs ys (i-1) - secantSlope xs ys (i-2)| ≠ 0) :
    min (secantSlope xs ys (i-1)) (secantSlope xs ys i) ≤ m.s.getD i 0
    ∧ m.s.getD i 0 ≤ max (secantSlope xs ys (i-1)) (secantSlope xs ys i) := by
  rw [construct_slope_eq h h2 hi]
  exact convex_div_between (abs_nonneg _) (abs_nonneg _) hd

/-- C8 witness: on the quadratic sample set at i = 2 the central secant
slopes are 3 and 5 and the stored slope 4 lies between them. -/
theorem interior_slope_between_witness :
    (|secantSlope exX exY 3 - secantSlope exX exY 2|
      + |secantSlope exX exY 1 - secantSlope exX exY 0| ≠ 0)
    ∧ min (secantSlope exX exY 1) (secantSlope exX exY 2) ≤ exM.s.getD 2 0
    ∧ exM.s.getD 2 0 ≤ max (secantSlope exX exY 1) (secantSlope exX exY 2) := by
  have hd : |secantSlope exX exY 3 - secantSlope exX exY 2|
      + |secantSlope exX exY 1 - secantSlope exX exY 0| ≠ 0 := by
    norm_num [secantSlope, exX, exY]
  obtain ⟨hl, hr⟩ := interior_slope_between exX exY exM 2 exConstruct
    (by norm_num) (by norm_num [exX]) hd
  exact ⟨hd, hl, hr⟩

/-- C9: for an in-domain query q with x[0] <= q < x[n-1], the upper-bound
search stepped back one position yields an index i with i + 1 <= n - 1 (so
the accesses at i and i+1 are in bounds) and x[i] <= q < x[i+1]; hence
dx = x[i+1] - x[i] is strictly positive and t = (q - x[i])/dx lies in
[0, 1). -/
theorem interval_search_sound (xs ys : List ℚ) (m : Makima) (q : ℚ)
    (h : Construct xs ys = .ok m)
    (hlo : xs.getD 0 0 ≤ q) (hhi : q < xs.getD (xs.length - 1) 0) :
    upperBound q xs - 1 + 1 ≤ xs.length - 1
    ∧ xs.getD (upperBound q xs - 1) 0 ≤ q
    ∧ q < xs.getD (upperBound q xs - 1 + 1) 0
    ∧ 0 < xs.getD (upperBound q xs - 1 + 1) 0 - xs.getD (upperBound q xs - 1) 0
    ∧ 0 ≤ (q - xs.getD (upperBound q xs - 1) 0)
        / (xs.getD (upperBound q xs - 1 + 1) 0 - xs.getD (upperBound q xs - 1) 0)
    ∧ (q - xs.getD (upperBound q xs - 1) 0)
        / (xs.getD (upperBound q xs - 1 + 1) 0 - xs.getD (upperBound q xs - 1) 0)
      < 1 := by
  obtain ⟨-, -, -, -, hn, -⟩ := construct_ok h
  have hj1 : 1 ≤ upperBound q xs := by
    by_contra hcon
    have h0 : upperBound q xs = 0 := by omega
    have hlt := lt_getD_upperBound q xs (by omega)
    rw [h0] at hlt
    exact absurd hlo (not_le.2 hlt)
  have hjn : upperBound q xs ≤ xs.length - 1 :=
    upperBound_le q xs (xs.length - 1) (by omega) hhi
  have hi1 : upperBound q xs - 1 + 1 = upperBound q xs := by omega
  rw [hi1]
  have hle : xs.getD (upperBound q xs - 1) 0 ≤ q :=
    getD_le_of_lt_upperBound q xs _ (by omega)
  have hlt : q < xs.getD (upperBound q xs) 0 :=
    lt_getD_upperBound q xs (by omega)
  have hdx : 0 < xs.getD (upperBound q xs) 0 - xs.getD (upperBound q xs - 1) 0 := by
    linarith
  refine ⟨by omega, hle, hlt, hdx, ?_, ?_⟩
  · exact div_nonneg (by linarith) (le_of_lt hdx)
  · rw [div_lt_one hdx]
    linarith

/-- C9 witness: on the three-point sample set with q = 1/2 the search gives
i = 0 with x[0] = 0 <= 1/2 < 1 = x[1] and t = 1/2. -/
theorem interval_search_sound_witness :
    (List.getD [(0 : ℚ), 1, 2] 0 0 ≤ 1/2)
    ∧ ((1 : ℚ)/2 < List.getD [(0 : ℚ), 1, 2] ([(0 : ℚ), 1, 2].length - 1) 0)
    ∧ upperBound (1/2) [(0 : ℚ), 1, 2] - 1 + 1 ≤ [(0 : ℚ), 1, 2].length - 1
    ∧ List.getD [(0 : ℚ), 1, 2] (upperBound (1/2) [(0 : ℚ), 1, 2] - 1) 0 ≤ 1/2 := by
  have h1 : List.getD [(0 : ℚ), 1, 2] 0 0 ≤ 1/2 := by norm_num
  have h2 : (1 : ℚ)/2 < List.getD [(0 : ℚ), 1, 2] ([(0 : ℚ), 1, 2].length - 1) 0 := by
    norm_num
  obtain ⟨c1, c2, -, -, -, -⟩ :=
    interval_search_sound [0, 1, 2] [0, 1, 0] exM3 (1/2) exConstruct3 h1 h2
  exact ⟨h1, h2, c1, c2⟩

/-- C10: after any successful construction the slope vector has the same
length as the abscissas, and every entry the interior loop does not assign -
index j < 2 or j >= n-2, which for n <= 4 is every index, the loop body
never running because the bound n-2 stays at most 2 and the size_t
subtraction cannot wrap for n >= 2 - is exactly zero, the value that
resizing the container put there. -/
theorem unassigned_slopes_zero (xs ys : List ℚ) (m : Makima)
    (h : Construct xs ys = .ok m) :
    m.s.length = xs.length
    ∧ (∀ j, j < 2 ∨ xs.length - 2 ≤ j → m.s.getD j 0 = 0)
    ∧ (xs.length ≤ 4 → ∀ j, m.s.getD j 0 = 0) := by
  obtain ⟨-, -, hs, -, -, -⟩ := construct_ok h
  have hzero : ∀ j, j < 2 ∨ xs.length - 2 ≤ j → m.s.getD j 0 = 0 := by
    intro j hj
    by_cases hjl : j < xs.length
    · rw [hs, computeSlopes_getD _ _ _ hjl, if_neg (by omega)]
    · rw [hs]
      exact List.getD_eq_default _ _ (by rw [computeSlopes_length]; omega)
  refine ⟨by rw [hs]; exact computeSlopes_length xs ys, hzero, ?_⟩
  intro h4 j
  by_cases hj2 : j < 2
  · exact hzero j (Or.inl hj2)
  · exact hzero j (Or.inr (by omega))

/-- C10 witness: the two-point interpolant has slope vector [0, 0]: both
entries, untouched by the empty interior loop, are zero. -/
theorem unassigned_slopes_zero_witness :
    Construct [(0 : ℚ), 1] [3, 4] = .ok exM2
    ∧ exM2.s.getD 0 0 = 0 ∧ exM2.s.getD 1 0 = 0 := by
  refine ⟨exConstruct2, ?_, ?_⟩
  · exact (unassigned_slopes_zero [0, 1] [3, 4] exM2 exConstruct2).2.1 0
      (Or.inl (by norm_num))
  · exact (unassigned_slopes_zero [0, 1] [3, 4] exM2 exConstruct2).2.1 1
      (Or.inl (by norm_num))
